import Mathlib

/-!
Shallow embedding of the Duke dining scraper
(`src/data/duke_scraper_FULL_VERSION.js`).

JS strings are modelled as `String` / `List Char`, JS objects as
insertion-ordered association lists with last-assignment-wins update
(mirroring object literal spread), the regular-expression patterns of the
text extractor as deterministic matchers (each pattern of the source has
disjoint character classes at every greedy boundary, except serving-size
pattern 3 whose backtracking is modelled explicitly), and the stateful DOM
traversal as explicit input structures.
-/

namespace DukeScraper

/-- JS `\s` whitespace class (ASCII part), also used by `trim()`. -/
def isWsChar (c : Char) : Bool :=
  c = ' ' || c = '\t' || c = '\n' || c = '\r' || c = '\x0b' || c = '\x0c'

/-- `[\d.]` character class. -/
def isNumDot (c : Char) : Bool := c.isDigit || c = '.'

/-- JS `\w` word-character class. -/
def isWordChar (c : Char) : Bool := c.isAlpha || c.isDigit || c = '_'

/-- JS `String.prototype.trim` on char lists. -/
def jsTrimL (l : List Char) : List Char :=
  ((l.dropWhile isWsChar).reverse.dropWhile isWsChar).reverse

/-- JS `String.prototype.trim`. -/
def jsTrim (s : String) : String := String.mk (jsTrimL s.data)

/-- JS `String.prototype.toLowerCase` (ASCII). -/
def lowerStr (s : String) : String := String.mk (s.data.map Char.toLower)

/-- Case-sensitive literal prefix: strip `lit` from the front of `s`. -/
def csStrip : List Char → List Char → Option (List Char)
  | [], s => some s
  | _ :: _, [] => none
  | l :: ls, c :: cs => if c = l then csStrip ls cs else none

/-- Case-insensitive literal prefix (the literal is given lowercase);
returns the rest after the literal. -/
def ciStrip : List Char → List Char → Option (List Char)
  | [], s => some s
  | _ :: _, [] => none
  | l :: ls, c :: cs => if c.toLower = l then ciStrip ls cs else none

/-- Like `ciStrip` but also returns the consumed original characters,
for building capture-group values. -/
def ciStripK : List Char → List Char → Option (List Char × List Char)
  | [], s => some ([], s)
  | _ :: _, [] => none
  | l :: ls, c :: cs =>
    if c.toLower = l then (ciStripK ls cs).map (fun p => (c :: p.1, p.2)) else none

/-- Leftmost-match scan of a regex: try the matcher at every start
position, leftmost success wins (JS `String.prototype.match`). -/
def scanO (m : List Char → Option α) : List Char → Option α
  | [] => m []
  | c :: rest =>
    match m (c :: rest) with
    | some r => some r
    | none => scanO m rest

/-- JS `String.prototype.includes`. -/
def containsSub (needle hay : String) : Bool :=
  (scanO (csStrip needle.data) hay.data).isSome

/-- Case-insensitive substring test (the needle is given lowercase). -/
def ciContainsStr (needle hay : String) : Bool :=
  (scanO (ciStrip needle.data) hay.data).isSome

/-- `\s+` : at least one whitespace char, maximal munch. -/
def stripWs1 (s : List Char) : Option (List Char) :=
  match s.span isWsChar with
  | ([], _) => none
  | (_ :: _, r) => some r

/-- `(\d+)` : at least one digit, maximal munch; returns (digits, rest). -/
def digits1 (s : List Char) : Option (List Char × List Char) :=
  match s.span Char.isDigit with
  | ([], _) => none
  | (d, r) => some (d, r)

/-- `/Calories(\d+)/i` at one position. -/
def mCal1 (s : List Char) : Option (List Char) :=
  (ciStrip "calories".data s).bind fun r => (digits1 r).map Prod.fst

/-- `/Calories\s+(\d+)/i` at one position. -/
def mCal2 (s : List Char) : Option (List Char) :=
  (ciStrip "calories".data s).bind fun r =>
  (stripWs1 r).bind fun r1 => (digits1 r1).map Prod.fst

/-- `/Amount Per Serving\s+Calories\s*(\d+)/i` at one position. -/
def mCal3 (s : List Char) : Option (List Char) :=
  (ciStrip "amount per serving".data s).bind fun r =>
  (stripWs1 r).bind fun r1 =>
  (ciStrip "calories".data r1).bind fun r2 =>
  (digits1 (r2.dropWhile isWsChar)).map Prod.fst

/-- `/Calories[\s\n]*(\d+)/i` at one position. -/
def mCal4 (s : List Char) : Option (List Char) :=
  (ciStrip "calories".data s).bind fun r =>
  (digits1 (r.dropWhile isWsChar)).map Prod.fst

/-- `extractMatch(text, regex)` of the source: first match, capture group
1, trimmed; empty string when nothing matches. -/
def extractMatch (m : List Char → Option (List Char)) (text : String) : String :=
  match scanO m text.data with
  | some cap => String.mk (jsTrimL cap)
  | none => ""

/-- Calorie extraction fallback chain of `extractNutritionFromModal`
(source lines 387-408; pattern 4 takes the raw capture, which is all
digits, so trimming is the identity on it). -/
def extractCalories (text : String) : String :=
  let c := extractMatch mCal1 text
  let c := if c = "" then extractMatch mCal2 text else c
  let c := if c = "" then extractMatch mCal3 text else c
  let c := if c = "" then extractMatch mCal4 text else c
  c

example : extractCalories "Calories123" = "123" := by decide
example : extractCalories "Calories  456" = "456" := by decide
example : extractCalories "no token here" = "" := by decide
example : extractCalories "Calories 7 Calories123" = "123" := by decide

/-- `/Serving Size\s+([\d.]+\s*oz\s*\([\d]+g\))/i` at one position. -/
def mServ1 (s : List Char) : Option (List Char) :=
  (ciStrip "serving size".data s).bind fun r =>
  (stripWs1 r).bind fun r1 =>
  match r1.span isNumDot with
  | ([], _) => none
  | (d, r2) =>
    let (w2, r3) := r2.span isWsChar
    (ciStripK "oz".data r3).bind fun p =>
    let (w3, r5) := p.2.span isWsChar
    match r5 with
    | '(' :: r6 =>
      (match r6.span Char.isDigit with
       | ([], _) => none
       | (dg, r7) =>
         match r7 with
         | g :: ')' :: _ =>
           if g.toLower = 'g' then
             some (d ++ w2 ++ p.1 ++ w3 ++ '(' :: (dg ++ g :: [')'])) else none
         | _ => none)
    | _ => none

/-- `/Serving Size\s+([\d.]+\s*oz)/i` at one position. -/
def mServ2 (s : List Char) : Option (List Char) :=
  (ciStrip "serving size".data s).bind fun r =>
  (stripWs1 r).bind fun r1 =>
  match r1.span isNumDot with
  | ([], _) => none
  | (d, r2) =>
    let (w2, r3) := r2.span isWsChar
    (ciStripK "oz".data r3).map fun p => d ++ w2 ++ p.1

/-- Backtracking of the greedy `\s+` before `([^\n]+)` when the text ends
right after the whitespace run `w`: split points are tried from the
largest down to 1 consumed whitespace char. -/
def servBack (w : List Char) : Nat → Option (List Char)
  | 0 => none
  | k + 1 =>
    if k = 0 then none
    else
      match (w.drop k).head? with
      | some c =>
        if c = '\n' then servBack w k
        else some ((w.drop k).takeWhile (fun x => x ≠ '\n'))
      | none => servBack w k

/-- `/Serving Size\s+([^\n]+)/i` at one position (the char after a maximal
whitespace run is never `\n`, so backtracking only happens at text end). -/
def mServ3 (s : List Char) : Option (List Char) :=
  (ciStrip "serving size".data s).bind fun r =>
  match r.span isWsChar with
  | ([], _) => none
  | (w, []) => servBack w w.length
  | (_, t) => some (t.takeWhile (fun x => x ≠ '\n'))

/-- Serving-size extraction fallback chain of `extractNutritionFromModal`
(source lines 411-417). -/
def extractServing (text : String) : String :=
  let s := extractMatch mServ1 text
  let s := if s = "" then extractMatch mServ2 text else s
  let s := if s = "" then extractMatch mServ3 text else s
  s

/-- `\d+\.?\d*` with maximal munch; returns (consumed, rest). -/
def numOptDec (s : List Char) : Option (List Char × List Char) :=
  match s.span Char.isDigit with
  | ([], _) => none
  | (d1, r1) =>
    match r1 with
    | '.' :: r2 =>
      (match r2.span Char.isDigit with
       | (d2, r3) => some (d1 ++ '.' :: d2, r3))
    | _ => some (d1, r1)

/-- `(\d+\.?\d*)g`-style tail: capture excludes the trailing `g`. -/
def mNumG (lit : List Char) (s : List Char) : Option (List Char) :=
  (ciStrip lit s).bind fun r =>
  (stripWs1 r).bind fun r1 =>
  (numOptDec r1).bind fun p =>
  match p.2 with
  | g :: _ => if g.toLower = 'g' then some p.1 else none
  | [] => none

/-- `\d+\.?\d*g` alternative: capture includes the trailing `g`. -/
def mNumGIncl (r1 : List Char) : Option (List Char) :=
  (numOptDec r1).bind fun p =>
  match p.2 with
  | g :: _ => if g.toLower = 'g' then some (p.1 ++ [g]) else none
  | [] => none

/-- `(\d+\.?\d*g|NA)`-style tail after the label and `\s+`. -/
def mNumGorNA (lit : List Char) (s : List Char) : Option (List Char) :=
  (ciStrip lit s).bind fun r =>
  (stripWs1 r).bind fun r1 =>
  match mNumGIncl r1 with
  | some c => some c
  | none => (ciStripK "na".data r1).map Prod.fst

/-- `/Cholesterol\s+(\d+mg|NA)/i` at one position. -/
def mChol (s : List Char) : Option (List Char) :=
  (ciStrip "cholesterol".data s).bind fun r =>
  (stripWs1 r).bind fun r1 =>
  match digits1 r1 with
  | some (d, r2) =>
    (match ciStripK "mg".data r2 with
     | some (mg, _) => some (d ++ mg)
     | none => (ciStripK "na".data r1).map Prod.fst)
  | none => (ciStripK "na".data r1).map Prod.fst

/-- `/Sodium\s+(\d+)mg/i` at one position: capture is the digits only. -/
def mSodium (s : List Char) : Option (List Char) :=
  (ciStrip "sodium".data s).bind fun r =>
  (stripWs1 r).bind fun r1 =>
  (digits1 r1).bind fun p =>
  if (ciStrip "mg".data p.2).isSome then some p.1 else none

/-- `<\s*\d+g` alternative of the fiber pattern. -/
def mFiberLt (r1 : List Char) : Option (List Char) :=
  match r1 with
  | '<' :: r2 =>
    (match r2.span isWsChar with
     | (w, r3) =>
       (digits1 r3).bind fun p =>
       match p.2 with
       | g :: _ => if g.toLower = 'g' then some ('<' :: (w ++ p.1 ++ [g])) else none
       | [] => none)
  | _ => none

/-- `/Dietary Fiber\s+(<\s*\d+g|\d+\.?\d*g)/i` at one position. -/
def mFiber (s : List Char) : Option (List Char) :=
  (ciStrip "dietary fiber".data s).bind fun r =>
  (stripWs1 r).bind fun r1 =>
  match mFiberLt r1 with
  | some c => some c
  | none => mNumGIncl r1

/-- `/Total Sugars\s+(\d+\.?\d*g)/i` at one position. -/
def mSugars (s : List Char) : Option (List Char) :=
  (ciStrip "total sugars".data s).bind fun r =>
  (stripWs1 r).bind fun r1 => mNumGIncl r1

/-- Section delimiter lookahead `(?=\*|Contains:|Allergen|Nutrition|$)` of
the ingredients pattern, tested at one position. -/
def isDelimAt (s : List Char) : Bool :=
  match s with
  | '*' :: _ => true
  | _ =>
    (ciStrip "contains:".data s).isSome || (ciStrip "allergen".data s).isSome ||
      (ciStrip "nutrition".data s).isSome

/-- Lazy capture `([^]*?)` up to the delimiter lookahead or text end. -/
def captureUntil : List Char → List Char
  | [] => []
  | c :: rest => if isDelimAt (c :: rest) then [] else c :: captureUntil rest

/-- `/Ingredients:\s*([^]*?)(?=\*|Contains:|Allergen|Nutrition|$)/i` at one
position (the `$` alternative makes the match total once the label is
found, so the greedy `\s*` never backtracks). -/
def mIngr (s : List Char) : Option (List Char) :=
  (ciStrip "ingredients:".data s).bind fun r =>
  some (captureUntil (r.dropWhile isWsChar))

/-- JS `replace(/\s+/g, ' ')`: the flag records whether the previous
character was part of a whitespace run already replaced. -/
def collapseWsGo : Bool → List Char → List Char
  | _, [] => []
  | inWs, c :: rest =>
    if isWsChar c then
      if inWs then collapseWsGo true rest
      else ' ' :: collapseWsGo true rest
    else c :: collapseWsGo false rest

/-- JS `replace(/\s+/g, ' ')`: every maximal whitespace run becomes one space. -/
def collapseWs (l : List Char) : List Char := collapseWsGo false l

/-- `extractIngredients` (source lines 442-448): capture, trim, collapse
whitespace, truncate to 2000 characters. -/
def extractIngredients (text : String) : String :=
  match scanO mIngr text.data with
  | some cap => String.mk ((collapseWs (jsTrimL cap)).take 2000)
  | none => ""

example : extractIngredients "Ingredients: salt,  pepper *daily values" = "salt, pepper" := by decide
example : extractIngredients "Ingredients: milk  and
 sugar Contains: milk" = "milk and sugar" := by decide
example : extractIngredients "no label" = "" := by decide
example : extractServing "Serving Size 4.5 oz (128g) next" = "4.5 oz (128g)" := by decide
example : extractServing "Serving Size 4.5 oz plain" = "4.5 oz" := by decide
example : extractServing "Serving Size 1 bowl" = "1 bowl" := by decide

/-- Unit alternation of the `getServingSize` row pattern. -/
def unitWords : List (List Char) :=
  ["oz".data, "g".data, "ml".data, "cup".data, "piece".data,
   "portion".data, "slice".data, "each".data, "item".data, "serving".data]

/-- `/\d+\s*(oz|g|ml|cup|piece|portion|slice|each|item|serving)/i` at one
position; only existence of a match is used. -/
def mQty (s : List Char) : Option Unit :=
  (digits1 s).bind fun p =>
  let r2 := p.2.dropWhile isWsChar
  if unitWords.any (fun u => (ciStrip u r2).isSome) then some () else none

/-- `getServingSize` (source lines 304-313): first cell whose trimmed text
matches the quantity pattern; the whole trimmed cell text is returned. -/
def getServingSize (cells : List String) : String :=
  match cells.find? (fun cell => (scanO mQty (jsTrim cell).data).isSome) with
  | some cell => jsTrim cell
  | none => ""

/-- One step of the image-alt pass of `getDietaryLabels` (source lines
319-328): the if/else-if keyword chain over the lowercased alt text. -/
def imgLabel (alt : String) : Option String :=
  let a := lowerStr alt
  if containsSub "vegan" a then some "Vegan"
  else if containsSub "vegetarian" a then some "Vegetarian"
  else if containsSub "gluten" a then some "Gluten Free"
  else if containsSub "dairy" a then some "Dairy Free"
  else if containsSub "halal" a then some "Halal"
  else if containsSub "kosher" a then some "Kosher"
  else none

/-- `\blit\b` case-insensitive test at one position: the literal matches
and the next character (if any) is not a word character. -/
def wordMatchAt (lit : List Char) (s : List Char) : Bool :=
  match ciStrip lit s with
  | some [] => true
  | some (c :: _) => !(isWordChar c)
  | none => false

/-- `\blit\b` case-insensitive search; the flag says whether the previous
character is a word character (left word boundary). -/
def wordSearch (lit : List Char) : Bool → List Char → Bool
  | prevW, [] => !prevW && wordMatchAt lit []
  | prevW, c :: rest =>
    (!prevW && wordMatchAt lit (c :: rest)) || wordSearch lit (isWordChar c) rest

/-- `regex.test(text)` for the `\b...\b/i` row-text patterns. -/
def wordTest (lit : List Char) (text : String) : Bool :=
  wordSearch lit false text.data

/-- Keyword table of the row-text pass (source lines 332-337), in
`Object.entries` order. -/
def textKeywords : List (String × List Char) :=
  [("Vegan", "vegan".data), ("Vegetarian", "vegetarian".data),
   ("Gluten Free", "gluten free".data), ("Halal", "halal".data)]

/-- `labels.join('; ')`. -/
def joinSemi (ls : List String) : String := String.intercalate "; " ls

/-- `getDietaryLabels` (source lines 315-346): image-alt pass (one push
per matching image, no dedup), then row-text pass (dedup against the
collected labels), joined with `"; "`. -/
def getDietaryLabels (imgTexts : List String) (rowText : String) : String :=
  let labels := imgTexts.foldl (fun acc alt =>
    match imgLabel alt with
    | some l => acc ++ [l]
    | none => acc) []
  let labels := textKeywords.foldl (fun acc kw =>
    if wordTest kw.2 rowText && !(acc.contains kw.1) then acc ++ [kw.1] else acc) labels
  joinSemi labels

example : getDietaryLabels ["Vegan option"] "Tofu Bowl Vegetarian" = "Vegan; Vegetarian" := by decide
example : getDietaryLabels ["vegan icon", "vegan icon"] "" = "Vegan; Vegan" := by decide

/-- A JS object modelled as an insertion-ordered association list:
setting an existing key overwrites its value in place, a new key is
appended (object literal / spread semantics). -/
abbrev Obj := List (String × String)

/-- Assign one key of a JS object: an existing key keeps its position and
gets the new value, a new key is appended at the end. -/
def objSet : Obj → String → String → Obj
  | [], k, v => [(k, v)]
  | (k', v') :: o, k, v =>
    if k' == k then (k, v) :: o else (k', v') :: objSet o k v

/-- Build a JS object literal from the written field order (later
occurrences of a key overwrite, key position stays at first occurrence). -/
def jsObj (fields : List (String × String)) : Obj :=
  fields.foldl (fun o kv => objSet o kv.1 kv.2) []

/-- Property read `o[k]`: `none` models `undefined`. -/
def objGet (o : Obj) (k : String) : Option String :=
  (o.find? (fun p => p.1 == k)).map Prod.snd

/-- `Object.keys`. -/
def objKeys (o : Obj) : List String := o.map Prod.fst

/-- `extractNutritionFromModal` (source lines 352-435): the DOM search for
the visible modal is modelled by its outcome, the modal's `textContent`
when found; `{}` is returned when no modal is found. -/
def extractNutritionFromModal (modalText : Option String) : List (String × String) :=
  match modalText with
  | none => []
  | some text =>
    [("serving_size", extractServing text),
     ("calories", extractCalories text),
     ("total_fat_g", extractMatch (mNumG "total fat".data) text),
     ("saturated_fat_g", extractMatch (mNumGorNA "saturated fat".data) text),
     ("trans_fat_g", extractMatch (mNumGorNA "trans fat".data) text),
     ("cholesterol_mg", extractMatch mChol text),
     ("sodium_mg", extractMatch mSodium text),
     ("total_carbs_g", extractMatch (mNumG "total carbohydrate".data) text),
     ("fiber_g", extractMatch mFiber text),
     ("sugars_g", extractMatch mSugars text),
     ("protein_g", extractMatch (mNumG "protein".data) text),
     ("ingredients", extractIngredients text)]

/-- The data one item row exposes to `scrapeItemRow`: cell texts, image
alt/title texts, whole-row text, the item link's text (`none` when the
row has no item link), the nutrition modal's text after the click
(`none` when no modal is found), and whether processing this row throws
(an exception raised by any DOM operation on it). -/
structure ItemRowInput where
  cells : List String
  imgTexts : List String
  rowText : String
  linkText : Option String
  modalText : Option String
  throws : Bool

/-- `scrapeItemRow` (source lines 266-302) without the thrown-exception
case: `none` models `return null`. -/
def scrapeItemRow (row : ItemRowInput) (restaurantName mealPeriod : String) : Option Obj :=
  let servingSize := getServingSize row.cells
  let dietaryLabels := getDietaryLabels row.imgTexts row.rowText
  match row.linkText with
  | none => none
  | some lt =>
    let itemName := jsTrim lt
    if itemName == "" || itemName.length < 2 then none
    else
      some (jsObj ([("restaurant", restaurantName), ("meal_period", mealPeriod),
        ("item_name", itemName), ("serving_size", servingSize),
        ("dietary_labels", dietaryLabels)] ++ extractNutritionFromModal row.modalText))

/-- Processing one item row, including the possibility that it throws. -/
def itemResult (row : ItemRowInput) (restaurantName mealPeriod : String) :
    Except String (Option Obj) :=
  if row.throws then Except.error "item error"
  else Except.ok (scrapeItemRow row restaurantName mealPeriod)

/-- `scrapeCurrentPage` (source lines 142-173, `TEST_MODE = false` so all
rows are processed): the per-item try/catch drops a throwing row, a
`null` item is not pushed, successes are appended to the accumulator. -/
def scrapeCurrentPage (restaurantName mealPeriod : String)
    (rows : List ItemRowInput) (acc : List Obj) : List Obj :=
  rows.foldl (fun a row =>
    match itemResult row restaurantName mealPeriod with
    | Except.error _ => a
    | Except.ok none => a
    | Except.ok (some rec) => a ++ [rec]) acc

/-- `MEAL_PERIOD_KEYWORDS` (source lines 59-73). -/
def MEAL_PERIOD_KEYWORDS : List String :=
  ["Breakfast", "Lunch", "Dinner", "Brunch", "All Day", "Specialty Drinks",
   "Combo Meal Menu", "Smoothies", "Lunch/Dinner", "Lunch and Dinner",
   "Lunch & Dinner", "Late Night", "All Day Service"]

/-- A clickable DOM element as seen by `findMealPeriods`: its
`textContent`, its visibility (`offsetParent !== null`), and the item rows
the page shows after this element is clicked. -/
structure DomElement where
  text : String
  visible : Bool
  reveals : List ItemRowInput

/-- The keyword test of `findMealPeriods`:
`text === keyword || text.includes(keyword)`. -/
def isMealPeriodText (t : String) : Bool :=
  MEAL_PERIOD_KEYWORDS.any (fun kw => t == kw || containsSub kw t)

/-- One loop iteration of `findMealPeriods`. -/
def fmpStep (acc : List (String × DomElement)) (el : DomElement) :
    List (String × DomElement) :=
  let t := jsTrim el.text
  if isMealPeriodText t && el.visible && decide (t.length < 100) then
    if acc.any (fun p => p.1 == t) then acc else acc ++ [(t, el)]
  else acc

/-- `findMealPeriods` (source lines 189-210): keep visible elements whose
trimmed text equals or contains a meal-period keyword and is shorter than
100 characters, deduplicated by the text. -/
def findMealPeriods (els : List DomElement) : List (String × DomElement) :=
  els.foldl fmpStep []

/-- One restaurant's page as seen by `scrapeRestaurant`: whether
`findRestaurantLink` finds the link, whether processing the restaurant
throws before the per-item loops, the restaurant's name, the clickable
elements scanned for meal periods, and the item rows of the page when no
meal period exists. -/
structure RestaurantPage where
  linkFound : Bool
  throws : Bool
  name : String
  clickables : List DomElement
  currentItems : List ItemRowInput

/-- `scrapeRestaurant` (source lines 110-140): a missing link yields no
records; with meal periods, each period's page is scraped under the
period's name; otherwise the current page is scraped under `"All Day"`. -/
def scrapeRestaurantE (page : RestaurantPage) : Except String (List Obj) :=
  if page.throws then Except.error "restaurant error"
  else if !page.linkFound then Except.ok []
  else
    let periods := findMealPeriods page.clickables
    match periods with
    | [] => Except.ok (scrapeCurrentPage page.name "All Day" page.currentItems [])
    | _ :: _ =>
      Except.ok (periods.foldl
        (fun acc p => scrapeCurrentPage page.name p.1 p.2.reveals acc) [])

/-- The records a restaurant contributes to the accumulated dataset. -/
def restRecords (page : RestaurantPage) : List Obj :=
  match scrapeRestaurantE page with
  | Except.error _ => []
  | Except.ok recs => recs

/-- `scrapeAllRestaurants` (source lines 84-108): the per-restaurant
try/catch drops a throwing restaurant and continues with the next one;
the accumulated dataset is returned. -/
def scrapeAllRestaurants (pages : List RestaurantPage) : List Obj :=
  pages.foldl (fun acc page =>
    match scrapeRestaurantE page with
    | Except.error _ => acc
    | Except.ok recs => acc ++ recs) []

/-- CSV escaping of one value (`replace(/"/g, '""')`): internal double
quotes doubled. -/
def escapeQuotes : List Char → List Char
  | [] => []
  | c :: v => if c = '"' then '"' :: '"' :: escapeQuotes v else c :: escapeQuotes v

/-- One rendered CSV data field: `"${escaped}"`. -/
def quoteField (v : String) : List Char :=
  '"' :: (escapeQuotes v.data ++ ['"'])

/-- `array.join(sep)`. -/
def joinL (sep : List Char) : List (List Char) → List Char
  | [] => []
  | [x] => x
  | x :: y :: rest => x ++ (sep ++ joinL sep (y :: rest))

/-- `row[header] || ''`: a missing key or an empty value both render as
the empty string. -/
def objGetD (row : Obj) (k : String) : String :=
  ((row.find? (fun p => p.1 == k)).map Prod.snd).getD ""

/-- One rendered CSV data row. -/
def csvRowFor (headers : List String) (row : Obj) : List Char :=
  joinL [','] (headers.map (fun h => quoteField (objGetD row h)))

/-- `downloadCSV` (source lines 477-512) up to the file-writing boundary:
`none` models the reported error and absent file for an empty dataset,
`some content` the text written to the downloaded file. Headers come from
the first record and are joined unquoted; every data field is quoted. -/
def downloadCSVContent (data : List Obj) : Option String :=
  match data with
  | [] => none
  | first :: _ =>
    let headers := objKeys first
    let headerRow := joinL [','] (headers.map String.data)
    some (String.mk (joinL ['\n'] (headerRow :: data.map (csvRowFor headers))))

/-- Standard CSV parser, quoted-field body: stops at an unescaped double
quote, a doubled double quote is one literal quote. -/
def parseQuoted : List Char → List Char × List Char
  | [] => ([], [])
  | '"' :: '"' :: rest =>
    let p := parseQuoted rest
    ('"' :: p.1, p.2)
  | '"' :: rest => ([], rest)
  | c :: rest =>
    let p := parseQuoted rest
    (c :: p.1, p.2)

/-- Standard CSV parser, one field: a quoted field or a run up to the
next separator; returns the field and the rest starting at the
separator. -/
def parseField : List Char → String × List Char
  | [] => ("", [])
  | c :: rest =>
    if c = '"' then
      let p := parseQuoted rest
      (String.mk p.1, p.2)
    else
      (String.mk ((c :: rest).takeWhile (fun x => !(x == ',') && !(x == '\n'))),
       (c :: rest).dropWhile (fun x => !(x == ',') && !(x == '\n')))

theorem parseQuoted_len (s : List Char) : (parseQuoted s).2.length ≤ s.length := by
  induction s using parseQuoted.induct with
  | case1 => simp [parseQuoted]
  | case2 rest ih =>
    simp only [parseQuoted]
    simp only [List.length_cons]
    omega
  | case3 rest h =>
    rw [parseQuoted.eq_3 rest h]
    simp
  | case4 c rest h1 h2 ih =>
    rw [parseQuoted.eq_4 c rest h1 h2]
    simp only [List.length_cons]
    omega

theorem parseField_len (s : List Char) : (parseField s).2.length ≤ s.length := by
  match s with
  | [] => simp [parseField]
  | c :: rest =>
    by_cases h : c = '"'
    · have := parseQuoted_len rest
      simp only [parseField, h, if_true, List.length_cons]
      simp only [List.length_cons] at this ⊢
      omega
    · simp only [parseField, if_neg h]
      exact (List.dropWhile_suffix _).length_le

/-- Standard CSV parser, one record row: fields separated by commas,
terminated by a newline or the end of input. -/
def parseRow (s : List Char) : List String × List Char :=
  match h : (parseField s).2 with
  | ',' :: r2 =>
    let q := parseRow r2
    ((parseField s).1 :: q.1, q.2)
  | '\n' :: r2 => ([(parseField s).1], r2)
  | _ => ([(parseField s).1], [])
termination_by s.length
decreasing_by
  have hl := parseField_len s
  rw [h] at hl
  simp only [List.length_cons] at hl
  omega

theorem parseRow_nil : parseRow [] = ([""], []) := by
  rw [parseRow]
  rfl

theorem parseRow_rest_len (s : List Char) (hs : s ≠ []) :
    (parseRow s).2.length < s.length := by
  induction s using parseRow.induct with
  | case1 s r2 h ih =>
    rw [parseRow]
    split
    · rename_i r2a ha
      rw [h] at ha
      cases ha
      by_cases hr : r2 = []
      · subst hr
        rw [parseRow_nil]
        simpa using List.length_pos.mpr hs
      · have hl := parseField_len s
        rw [h] at hl
        simp only [List.length_cons] at hl
        have := ih hr
        simp only []
        omega
    · rename_i r2a ha
      rw [h] at ha
      cases ha
    · rename_i hc hn
      exact absurd h (hc r2)
  | case2 s r2 h =>
    rw [parseRow]
    split
    · rename_i r2a ha
      rw [h] at ha
      cases ha
    · rename_i r2a ha
      rw [h] at ha
      cases ha
      have hl := parseField_len s
      rw [h] at hl
      simp only [List.length_cons] at hl
      simp only []
      omega
    · rename_i hc hn
      exact absurd h (hn r2)
  | case3 s hc hn =>
    rw [parseRow]
    split
    · rename_i r2a ha
      exact absurd ha (hc r2a)
    · rename_i r2a ha
      exact absurd ha (hn r2a)
    · simpa using List.length_pos.mpr hs

/-- Standard CSV parser, all rows. -/
def parseRows (s : List Char) : List (List String) :=
  match s with
  | [] => []
  | c :: rest =>
    let p := parseRow (c :: rest)
    p.1 :: parseRows p.2
termination_by s.length
decreasing_by
  exact parseRow_rest_len _ (by simp)

/-- Standard CSV parser entry point. -/
def parseCSV (s : String) : List (List String) := parseRows s.data

/-! ### Helper lemmas about the scanning matcher -/

theorem scanO_cons (f : List Char → Option α) (c : Char) (rest : List Char) :
    scanO f (c :: rest) = match f (c :: rest) with
      | some r => some r
      | none => scanO f rest := rfl

theorem scanO_eq_none_iff (f : List Char → Option α) (t : List Char) :
    scanO f t = none ↔ ∀ s, s <:+ t → f s = none := by
  induction t with
  | nil =>
    simp only [scanO]
    constructor
    · intro h s hs
      rw [List.suffix_nil.mp hs]
      exact h
    · intro h
      exact h [] (List.suffix_refl _)
  | cons c rest ih =>
    rw [scanO_cons]
    cases hf : f (c :: rest) with
    | some r =>
      simp only []
      constructor
      · intro h
        cases h
      · intro h
        rw [h (c :: rest) (List.suffix_refl _)] at hf
        cases hf
    | none =>
      simp only []
      rw [ih]
      constructor
      · intro h s hs
        rcases List.suffix_cons_iff.mp hs with h1 | h2
        · rw [h1]
          exact hf
        · exact h s h2
      · intro h s hs
        exact h s (hs.trans (List.suffix_cons _ _))

theorem scanO_some_of_ne_none (f : List Char → Option α) (t : List Char)
    (h : scanO f t ≠ none) : ∃ s, s <:+ t ∧ f s ≠ none := by
  by_contra hc
  push_neg at hc
  exact h ((scanO_eq_none_iff f t).mpr hc)

theorem ciStrip_suffix (lit : List Char) :
    ∀ s r : List Char, ciStrip lit s = some r → r <:+ s := by
  induction lit with
  | nil =>
    intro s r h
    simp only [ciStrip] at h
    cases h
    exact List.suffix_refl _
  | cons l ls ih =>
    intro s r h
    cases s with
    | nil => cases h
    | cons c cs =>
      simp only [ciStrip] at h
      split at h
      · exact (ih cs r h).trans (List.suffix_cons c cs)
      · cases h

theorem stripWs1_eq (r r1 : List Char) (h : stripWs1 r = some r1) :
    r1 = r.dropWhile isWsChar := by
  unfold stripWs1 at h
  rw [List.span_eq_take_drop] at h
  cases ht : r.takeWhile isWsChar with
  | nil => rw [ht] at h; cases h
  | cons a as => rw [ht] at h; cases h; rfl

theorem mCal3_calories_inside (s cap : List Char) (h : mCal3 s = some cap) :
    ∃ r1, r1 <:+ s ∧ ciStrip "calories".data r1 ≠ none := by
  cases h1 : ciStrip "amount per serving".data s with
  | none => rw [mCal3, h1] at h; cases h
  | some r =>
    cases h2 : stripWs1 r with
    | none => rw [mCal3, h1] at h; simp [h2] at h
    | some r1 =>
      cases h3 : ciStrip "calories".data r1 with
      | none =>
        rw [mCal3, h1] at h
        simp [h2, h3] at h
      | some r2 =>
        refine ⟨r1, ?_, by rw [h3]; exact fun hx => by cases hx⟩
        have hs1 := ciStrip_suffix _ _ _ h1
        have he : r1 = r.dropWhile isWsChar := stripWs1_eq _ _ h2
        rw [he]
        exact (List.dropWhile_suffix _).trans hs1

theorem extractCalories_of_no_token (t : String)
    (h : ciContainsStr "calories" t = false) : extractCalories t = "" := by
  have hnone : scanO (ciStrip "calories".data) t.data = none := by
    unfold ciContainsStr at h
    cases hs : scanO (ciStrip "calories".data) t.data
    · rfl
    · rw [hs] at h
      cases h
  have hall : ∀ s, s <:+ t.data → ciStrip "calories".data s = none :=
    (scanO_eq_none_iff _ _).mp hnone
  have h1 : scanO mCal1 t.data = none := (scanO_eq_none_iff _ _).mpr (fun s hs => by
    rw [mCal1, hall s hs]; rfl)
  have h2 : scanO mCal2 t.data = none := (scanO_eq_none_iff _ _).mpr (fun s hs => by
    rw [mCal2, hall s hs]; rfl)
  have h4 : scanO mCal4 t.data = none := (scanO_eq_none_iff _ _).mpr (fun s hs => by
    rw [mCal4, hall s hs]; rfl)
  have h3 : scanO mCal3 t.data = none := by
    cases hs : scanO mCal3 t.data with
    | none => rfl
    | some cap =>
      obtain ⟨s, hsuf, hfs⟩ := scanO_some_of_ne_none mCal3 t.data (by rw [hs]; exact fun hx => by cases hx)
      cases hcap : mCal3 s with
      | none => exact absurd hcap hfs
      | some cap2 =>
        obtain ⟨r1, hr1, hci⟩ := mCal3_calories_inside s cap2 hcap
        exact absurd (hall r1 (hr1.trans hsuf)) hci
  unfold extractCalories extractMatch
  rw [h1, h2, h3, h4]
  rfl

/-- C2: the calorie extraction tries its patterns in the stated priority
order with the no-space pattern first: `"Calories123"` yields `"123"`,
`"Calories  456"` yields `"456"`, a text whose only no-space match comes
after an earlier spaced match still yields the no-space match, and a text
containing no `"Calories"` token (case-insensitively) yields `""`. -/
theorem claim_C2_calorie_fallback_order :
    extractCalories "Calories123" = "123" ∧
    extractCalories "Calories  456" = "456" ∧
    extractCalories "Calories 7 Calories123" = "123" ∧
    ∀ t : String, ciContainsStr "calories" t = false → extractCalories t = "" :=
  ⟨by decide, by decide, by decide, fun t h => extractCalories_of_no_token t h⟩

/-- C2 witness: the final conjunct applied at a concrete token-free text. -/
theorem claim_C2_witness :
    ciContainsStr "calories" "Protein 12g only" = false ∧
    extractCalories "Protein 12g only" = "" :=
  ⟨by decide, claim_C2_calorie_fallback_order.2.2.2 "Protein 12g only" (by decide)⟩

/-! ### C4 helper lemmas -/

theorem extractIngredients_le (t : String) : (extractIngredients t).length ≤ 2000 := by
  unfold extractIngredients
  cases h : scanO mIngr t.data with
  | none => simp
  | some cap =>
    simp only [String.length, List.length_take]
    exact Nat.min_le_left _ _

theorem isDelimAt_z (xs : List Char) : isDelimAt ('z' :: xs) = false := rfl

theorem captureUntil_z (n : Nat) :
    captureUntil (List.replicate n 'z') = List.replicate n 'z' := by
  induction n with
  | zero => rfl
  | succ k ih =>
    rw [List.replicate_succ]
    simp only [captureUntil, isDelimAt_z, Bool.false_eq_true, if_false]
    rw [ih]

theorem dropWhile_ws_z (n : Nat) :
    List.dropWhile isWsChar (List.replicate n 'z') = List.replicate n 'z' := by
  cases n with
  | zero => rfl
  | succ k =>
    rw [List.replicate_succ, List.dropWhile_cons]
    simp [isWsChar]

theorem jsTrimL_z (n : Nat) :
    jsTrimL (List.replicate n 'z') = List.replicate n 'z' := by
  unfold jsTrimL
  rw [dropWhile_ws_z, List.reverse_replicate, dropWhile_ws_z, List.reverse_replicate]

theorem collapseWsGo_z (n : Nat) :
    collapseWsGo false (List.replicate n 'z') = List.replicate n 'z' := by
  induction n with
  | zero => rfl
  | succ k ih =>
    rw [List.replicate_succ]
    simp only [collapseWsGo, isWsChar]
    rw [ih]
    simp [List.replicate_succ]

theorem mIngr_at_label (tl : List Char) :
    mIngr ("Ingredients: ".data ++ tl) = some (captureUntil (tl.dropWhile isWsChar)) := by
  have h : ciStrip "ingredients:".data ("Ingredients: ".data ++ tl) = some (' ' :: tl) := rfl
  unfold mIngr
  rw [h]
  simp only [Option.some_bind, List.dropWhile_cons]
  norm_num [isWsChar]

theorem extractIngredients_3000 :
    (extractIngredients (String.mk ("Ingredients: ".data ++ List.replicate 3000 'z'))).length
      = 2000 := by
  unfold extractIngredients
  have hd : (String.mk ("Ingredients: ".data ++ List.replicate 3000 'z')).data
      = "Ingredients: ".data ++ List.replicate 3000 'z' := rfl
  have hm : mIngr ("Ingredients: ".data ++ List.replicate 3000 'z')
      = some (List.replicate 3000 'z') := by
    rw [mIngr_at_label, dropWhile_ws_z, captureUntil_z]
  have hscan : scanO mIngr ("Ingredients: ".data ++ List.replicate 3000 'z')
      = some (List.replicate 3000 'z') := by
    show scanO mIngr ('I' :: ("ngredients: ".data ++ List.replicate 3000 'z'))
      = some (List.replicate 3000 'z')
    rw [scanO_cons]
    have : mIngr ('I' :: ("ngredients: ".data ++ List.replicate 3000 'z'))
        = some (List.replicate 3000 'z') := hm
    rw [this]
  rw [hd, hscan]
  simp only [String.length]
  rw [jsTrimL_z]
  show (List.take 2000 (collapseWsGo false (List.replicate 3000 'z'))).length = 2000
  rw [collapseWsGo_z]
  rw [List.length_take, List.length_replicate]
  omega

/-- C4: ingredient extraction takes the text after the `"Ingredients:"`
label up to the first section delimiter (asterisk, `Contains:`,
`Allergen`, `Nutrition`, or end of text), collapses internal whitespace
to single spaces, and silently truncates to at most 2000 characters; a
3000-character block after the label yields exactly 2000 characters. -/
theorem claim_C4_ingredient_extraction :
    (∀ t : String, (extractIngredients t).length ≤ 2000) ∧
    extractIngredients "Ingredients: salt,  pepper *daily values" = "salt, pepper" ∧
    extractIngredients "Ingredients: milk  and\n sugar Contains: milk" = "milk and sugar" ∧
    extractIngredients "Ingredients: a Allergen info" = "a" ∧
    extractIngredients "Ingredients: b Nutrition facts" = "b" ∧
    extractIngredients "no label" = "" ∧
    (extractIngredients (String.mk ("Ingredients: ".data ++ List.replicate 3000 'z'))).length
      = 2000 :=
  ⟨extractIngredients_le, by decide, by decide, by decide, by decide, by decide,
   extractIngredients_3000⟩

/-! ### C1: failure isolation -/

/-- A single row's contribution to the dataset: `none` when the row throws
or `scrapeItemRow` returns `null`, the record otherwise. -/
def rowRecord (row : ItemRowInput) (restaurantName mealPeriod : String) : Option Obj :=
  if row.throws then none else scrapeItemRow row restaurantName mealPeriod

theorem scrapeCurrentPage_cons (rn mp : String) (r : ItemRowInput)
    (rs : List ItemRowInput) (acc : List Obj) :
    scrapeCurrentPage rn mp (r :: rs) acc =
      scrapeCurrentPage rn mp rs
        (match itemResult r rn mp with
         | Except.error _ => acc
         | Except.ok none => acc
         | Except.ok (some rec) => acc ++ [rec]) := rfl

theorem scrapeCurrentPage_eq (rn mp : String) (rows : List ItemRowInput) :
    ∀ acc : List Obj,
      scrapeCurrentPage rn mp rows acc
        = acc ++ rows.filterMap (fun row => rowRecord row rn mp) := by
  induction rows with
  | nil => intro acc; simp [scrapeCurrentPage]
  | cons r rs ih =>
    intro acc
    rw [scrapeCurrentPage_cons, ih]
    cases hth : r.throws with
    | true =>
      simp [itemResult, rowRecord, hth, List.filterMap_cons]
    | false =>
      cases hs : scrapeItemRow r rn mp with
      | none => simp [itemResult, rowRecord, hth, hs, List.filterMap_cons]
      | some rec => simp [itemResult, rowRecord, hth, hs, List.filterMap_cons]

theorem length_filterMap_eq_length_filter (f : α → Option β) (l : List α) :
    (l.filterMap f).length = (l.filter (fun a => (f a).isSome)).length := by
  induction l with
  | nil => rfl
  | cons a as ih =>
    cases h : f a <;> simp [List.filterMap_cons, List.filter_cons, h, ih]

theorem scrapeAllRestaurants_go (pages : List RestaurantPage) :
    ∀ acc : List Obj,
      pages.foldl (fun acc page =>
        match scrapeRestaurantE page with
        | Except.error _ => acc
        | Except.ok recs => acc ++ recs) acc
      = acc ++ (pages.map restRecords).flatten := by
  induction pages with
  | nil => intro acc; simp
  | cons p ps ih =>
    intro acc
    rw [List.foldl_cons, ih]
    cases hp : scrapeRestaurantE p with
    | error e => simp [restRecords, hp]
    | ok recs => simp [restRecords, hp]

/-- C1: an exception on one item row is caught at the item boundary, the
remaining rows of the page are still processed, and the dataset length
equals the number of successes; an exception on one restaurant is caught
at the restaurant boundary and the remaining restaurants still
contribute their records; a throwing row or restaurant contributes
nothing. -/
theorem claim_C1_failure_isolation :
    (∀ (rn mp : String) (rows : List ItemRowInput) (acc : List Obj),
      scrapeCurrentPage rn mp rows acc
        = acc ++ rows.filterMap (fun row => rowRecord row rn mp)) ∧
    (∀ (rn mp : String) (rows : List ItemRowInput),
      (scrapeCurrentPage rn mp rows []).length
        = (rows.filter (fun row => (rowRecord row rn mp).isSome)).length) ∧
    (∀ (row : ItemRowInput) (rn mp : String),
      rowRecord { row with throws := true } rn mp = none) ∧
    (∀ pages : List RestaurantPage,
      scrapeAllRestaurants pages = (pages.map restRecords).flatten) ∧
    (∀ page : RestaurantPage, restRecords { page with throws := true } = []) := by
  refine ⟨fun rn mp rows acc => scrapeCurrentPage_eq rn mp rows acc,
    fun rn mp rows => ?_, fun row rn mp => rfl,
    fun pages => scrapeAllRestaurants_go pages [], fun page => rfl⟩
  rw [scrapeCurrentPage_eq, List.nil_append, length_filterMap_eq_length_filter]

/-! ### Record shape lemmas -/

theorem extractNutritionFromModal_some (text : String) :
    extractNutritionFromModal (some text) =
      [("serving_size", extractServing text),
       ("calories", extractCalories text),
       ("total_fat_g", extractMatch (mNumG "total fat".data) text),
       ("saturated_fat_g", extractMatch (mNumGorNA "saturated fat".data) text),
       ("trans_fat_g", extractMatch (mNumGorNA "trans fat".data) text),
       ("cholesterol_mg", extractMatch mChol text),
       ("sodium_mg", extractMatch mSodium text),
       ("total_carbs_g", extractMatch (mNumG "total carbohydrate".data) text),
       ("fiber_g", extractMatch mFiber text),
       ("sugars_g", extractMatch mSugars text),
       ("protein_g", extractMatch (mNumG "protein".data) text),
       ("ingredients", extractIngredients text)] := rfl

theorem jsObj_noModal (rn mp inm sv dl : String) :
    jsObj ([("restaurant", rn), ("meal_period", mp), ("item_name", inm),
      ("serving_size", sv), ("dietary_labels", dl)] ++ []) =
    [("restaurant", rn), ("meal_period", mp), ("item_name", inm),
     ("serving_size", sv), ("dietary_labels", dl)] := by
  simp [jsObj, objSet]

/-- The spread of the found-modal nutrition object: `serving_size` is
overwritten in place, the eleven new keys are appended in order. -/
theorem jsObj_withModal (rn mp inm sv dl s c tf sf trf ch so tc fb su pr ing : String) :
    jsObj ([("restaurant", rn), ("meal_period", mp), ("item_name", inm),
      ("serving_size", sv), ("dietary_labels", dl)] ++
      [("serving_size", s), ("calories", c), ("total_fat_g", tf),
       ("saturated_fat_g", sf), ("trans_fat_g", trf), ("cholesterol_mg", ch),
       ("sodium_mg", so), ("total_carbs_g", tc), ("fiber_g", fb),
       ("sugars_g", su), ("protein_g", pr), ("ingredients", ing)]) =
    [("restaurant", rn), ("meal_period", mp), ("item_name", inm),
     ("serving_size", s), ("dietary_labels", dl), ("calories", c),
     ("total_fat_g", tf), ("saturated_fat_g", sf), ("trans_fat_g", trf),
     ("cholesterol_mg", ch), ("sodium_mg", so), ("total_carbs_g", tc),
     ("fiber_g", fb), ("sugars_g", su), ("protein_g", pr), ("ingredients", ing)] := by
  simp [jsObj, objSet]

theorem scrapeItemRow_some_inv (row : ItemRowInput) (rn mp : String) (rec : Obj)
    (h : scrapeItemRow row rn mp = some rec) :
    ∃ lt, row.linkText = some lt ∧
      rec = jsObj ([("restaurant", rn), ("meal_period", mp),
        ("item_name", jsTrim lt), ("serving_size", getServingSize row.cells),
        ("dietary_labels", getDietaryLabels row.imgTexts row.rowText)] ++
        extractNutritionFromModal row.modalText) := by
  unfold scrapeItemRow at h
  cases hl : row.linkText with
  | none => rw [hl] at h; cases h
  | some lt =>
    rw [hl] at h
    simp only [] at h
    split at h
    · cases h
    · cases h
      exact ⟨lt, rfl, rfl⟩

theorem scrapeItemRow_meal_period (row : ItemRowInput) (rn mp : String) (rec : Obj)
    (h : scrapeItemRow row rn mp = some rec) :
    objGet rec "meal_period" = some mp := by
  obtain ⟨lt, hl, hrec⟩ := scrapeItemRow_some_inv row rn mp rec h
  subst hrec
  cases hm : row.modalText with
  | none => rw [show extractNutritionFromModal none = [] from rfl, jsObj_noModal]; rfl
  | some text => rw [extractNutritionFromModal_some, jsObj_withModal]; rfl

theorem scrapeItemRow_restaurant (row : ItemRowInput) (rn mp : String) (rec : Obj)
    (h : scrapeItemRow row rn mp = some rec) :
    objGet rec "restaurant" = some rn := by
  obtain ⟨lt, hl, hrec⟩ := scrapeItemRow_some_inv row rn mp rec h
  subst hrec
  cases hm : row.modalText with
  | none => rw [show extractNutritionFromModal none = [] from rfl, jsObj_noModal]; rfl
  | some text => rw [extractNutritionFromModal_some, jsObj_withModal]; rfl

/-- With a found modal, the spread overwrites `serving_size` with the
modal extraction. -/
theorem scrapeItemRow_serving_modal (row : ItemRowInput) (rn mp : String) (rec : Obj)
    (text : String) (hm : row.modalText = some text)
    (h : scrapeItemRow row rn mp = some rec) :
    objGet rec "serving_size" = some (extractServing text) := by
  obtain ⟨lt, hl, hrec⟩ := scrapeItemRow_some_inv row rn mp rec h
  subst hrec
  rw [hm, extractNutritionFromModal_some, jsObj_withModal]
  rfl

/-- With no modal, the row-level pre-click capture survives. -/
theorem scrapeItemRow_serving_noModal (row : ItemRowInput) (rn mp : String) (rec : Obj)
    (hm : row.modalText = none)
    (h : scrapeItemRow row rn mp = some rec) :
    objGet rec "serving_size" = some (getServingSize row.cells) := by
  obtain ⟨lt, hl, hrec⟩ := scrapeItemRow_some_inv row rn mp rec h
  subst hrec
  rw [hm, show extractNutritionFromModal none = [] from rfl, jsObj_noModal]
  rfl

/-! ### C8: meal-period detection and the All Day fallback -/

theorem fmp_mem (l : List DomElement) :
    ∀ (acc : List (String × DomElement)) (p : String × DomElement),
      p ∈ l.foldl fmpStep acc →
      p ∈ acc ∨ (p.2 ∈ l ∧ p.1 = jsTrim p.2.text ∧ isMealPeriodText p.1 = true ∧
        p.2.visible = true ∧ p.1.length < 100) := by
  induction l with
  | nil => intro acc p hp; exact Or.inl hp
  | cons el rest ih =>
    intro acc p hp
    rw [List.foldl_cons] at hp
    rcases ih _ p hp with h | h
    · simp only [fmpStep] at h
      split at h
      · rename_i hcond
        split at h
        · exact Or.inl h
        · rcases List.mem_append.mp h with h1 | h1
          · exact Or.inl h1
          · rw [List.mem_singleton] at h1
            subst h1
            simp only [Bool.and_eq_true, decide_eq_true_eq] at hcond
            exact Or.inr ⟨List.mem_cons_self _ _, rfl, hcond.1.1, hcond.1.2, hcond.2⟩
      · exact Or.inl h
    · exact Or.inr ⟨List.mem_cons_of_mem _ h.1, h.2⟩

theorem fmp_nodup (l : List DomElement) :
    ∀ acc : List (String × DomElement),
      (acc.map Prod.fst).Nodup → ((l.foldl fmpStep acc).map Prod.fst).Nodup := by
  induction l with
  | nil => intro acc h; exact h
  | cons el rest ih =>
    intro acc h
    rw [List.foldl_cons]
    apply ih
    simp only [fmpStep]
    split
    · split
      · exact h
      · rename_i hnot
        rw [List.map_append]
        simp only [List.map_cons, List.map_nil]
        refine List.Nodup.append h (List.nodup_singleton _) ?_
        intro a ha hb
        rw [List.mem_singleton] at hb
        subst hb
        obtain ⟨q, hq, hq2⟩ := List.mem_map.mp ha
        have : acc.any (fun p => p.1 == jsTrim el.text) = true := by
          rw [List.any_eq_true]
          exact ⟨q, hq, by rw [hq2]; exact beq_self_eq_true _⟩
        simp [this] at hnot
    · exact h

theorem restRecords_allDay (page : RestaurantPage)
    (hmp : findMealPeriods page.clickables = [])
    (rec : Obj) (hrec : rec ∈ restRecords page) :
    objGet rec "meal_period" = some "All Day" := by
  unfold restRecords at hrec
  cases hth : page.throws with
  | true =>
    rw [show scrapeRestaurantE page = Except.error "restaurant error" by
      unfold scrapeRestaurantE; rw [hth]; rfl] at hrec
    cases (show rec ∈ ([] : List Obj) from hrec)
  | false =>
    cases hlf : page.linkFound with
    | false =>
      rw [show scrapeRestaurantE page = Except.ok [] by
        unfold scrapeRestaurantE; rw [hth, hlf]; rfl] at hrec
      cases (show rec ∈ ([] : List Obj) from hrec)
    | true =>
      rw [show scrapeRestaurantE page
          = Except.ok (scrapeCurrentPage page.name "All Day" page.currentItems []) by
        unfold scrapeRestaurantE; rw [hth, hlf, hmp]; rfl] at hrec
      have hrec2 : rec ∈ scrapeCurrentPage page.name "All Day" page.currentItems [] := hrec
      rw [scrapeCurrentPage_eq, List.nil_append] at hrec2
      obtain ⟨row, hrow, hr⟩ := List.mem_filterMap.mp hrec2
      unfold rowRecord at hr
      split at hr
      · cases hr
      · exact scrapeItemRow_meal_period row page.name "All Day" rec hr

/-- C8: meal-period detection returns only currently visible elements of
the scanned list whose trimmed text matches the closed keyword vocabulary
exactly or by containment and is under 100 characters, deduplicated by
the label text; and when zero elements match, every record the restaurant
produces carries `meal_period = "All Day"`. -/
theorem claim_C8_meal_periods :
    (∀ els : List DomElement, ∀ p ∈ findMealPeriods els,
      p.2 ∈ els ∧ p.1 = jsTrim p.2.text ∧ isMealPeriodText p.1 = true ∧
        p.2.visible = true ∧ p.1.length < 100) ∧
    (∀ els : List DomElement, ((findMealPeriods els).map Prod.fst).Nodup) ∧
    (∀ page : RestaurantPage, findMealPeriods page.clickables = [] →
      ∀ rec ∈ restRecords page, objGet rec "meal_period" = some "All Day") := by
  refine ⟨fun els p hp => ?_, fun els => fmp_nodup els [] (by simp),
    fun page hmp rec hrec => restRecords_allDay page hmp rec hrec⟩
  rcases fmp_mem els [] p hp with h | h
  · cases h
  · exact h

/-- Concrete element for the C8 witness. -/
def wEl : DomElement := ⟨" Lunch ", true, []⟩

/-- Concrete item row for the C8 witness. -/
def wRow : ItemRowInput := ⟨[], [], "", some "Pasta Bowl", none, false⟩

/-- Concrete restaurant page with no meal-period elements for the C8
witness. -/
def wPage : RestaurantPage := ⟨true, false, "Cafe", [], [wRow]⟩

/-- C8 witness: the theorem applied to a concrete element list and a
concrete no-meal-period page. -/
theorem claim_C8_witness :
    (("Lunch", wEl) ∈ findMealPeriods [wEl] ∧ wEl ∈ [wEl] ∧
      isMealPeriodText "Lunch" = true ∧ wEl.visible = true) ∧
    (findMealPeriods wPage.clickables = [] ∧
      objGet [("restaurant", "Cafe"), ("meal_period", "All Day"),
        ("item_name", "Pasta Bowl"), ("serving_size", ""), ("dietary_labels", "")]
        "meal_period" = some "All Day") := by
  have hfm : findMealPeriods [wEl] = [("Lunch", wEl)] := rfl
  have hmem : ("Lunch", wEl) ∈ findMealPeriods [wEl] := by
    rw [hfm]
    exact List.mem_singleton.mpr rfl
  have happ := claim_C8_meal_periods.1 [wEl] ("Lunch", wEl) hmem
  have hrr : restRecords wPage = [[("restaurant", "Cafe"), ("meal_period", "All Day"),
      ("item_name", "Pasta Bowl"), ("serving_size", ""), ("dietary_labels", "")]] := rfl
  have hmem2 : [("restaurant", "Cafe"), ("meal_period", "All Day"),
      ("item_name", "Pasta Bowl"), ("serving_size", ""), ("dietary_labels", "")]
      ∈ restRecords wPage := by
    rw [hrr]
    exact List.mem_singleton.mpr rfl
  exact ⟨⟨hmem, happ.1, happ.2.2.1, happ.2.2.2.1⟩,
    ⟨rfl, claim_C8_meal_periods.2.2 wPage rfl _ hmem2⟩⟩

/-! ### C5, C10: serving-size precedence -/

/-- C5: when a row-level serving size was captured before the click and
the modal's own serving-size text is also found, the record's
`serving_size` equals the modal value: the modal value overwrites the row
value and is never merged with it. -/
theorem claim_C5_serving_precedence (row : ItemRowInput) (rn mp : String)
    (rec : Obj) (text sv : String)
    (hm : row.modalText = some text)
    (hrow : getServingSize row.cells ≠ "")
    (hmodal : extractServing text = sv) (hsv : sv ≠ "")
    (hrec : scrapeItemRow row rn mp = some rec) :
    objGet rec "serving_size" = some sv := by
  subst hmodal
  exact scrapeItemRow_serving_modal row rn mp rec text hm hrec

/-- Concrete row for the C5 witness: row-level serving size and a modal
with its own serving-size text. -/
def wRow5 : ItemRowInput :=
  ⟨["12 oz"], [], "", some "Burger", some "Serving Size 4.5 oz (128g)", false⟩

/-- C5 witness: the theorem applied to a concrete row. -/
theorem claim_C5_witness :
    getServingSize wRow5.cells = "12 oz" ∧
    extractServing "Serving Size 4.5 oz (128g)" = "4.5 oz (128g)" ∧
    objGet (jsObj ([("restaurant", "R"), ("meal_period", "Lunch"),
      ("item_name", jsTrim "Burger"),
      ("serving_size", getServingSize wRow5.cells),
      ("dietary_labels", getDietaryLabels wRow5.imgTexts wRow5.rowText)] ++
      extractNutritionFromModal wRow5.modalText)) "serving_size"
      = some "4.5 oz (128g)" := by
  refine ⟨by decide, by decide, ?_⟩
  exact claim_C5_serving_precedence wRow5 "R" "Lunch" _ "Serving Size 4.5 oz (128g)"
    "4.5 oz (128g)" rfl (by decide) (by decide) (by decide) rfl

/-- C10 (implicit): when the modal is found but its serving-size chain
extracts nothing, the record's `serving_size` is the empty string even if
a non-empty row-level value was captured; the row-level capture reaches
the record exactly when no modal is found. -/
theorem claim_C10_serving_row_survival :
    (∀ (row : ItemRowInput) (rn mp : String) (rec : Obj) (text : String),
      row.modalText = some text → extractServing text = "" →
      scrapeItemRow row rn mp = some rec →
      objGet rec "serving_size" = some "") ∧
    (∀ (row : ItemRowInput) (rn mp : String) (rec : Obj),
      row.modalText = none →
      scrapeItemRow row rn mp = some rec →
      objGet rec "serving_size" = some (getServingSize row.cells)) := by
  constructor
  · intro row rn mp rec text hm he hrec
    have h := scrapeItemRow_serving_modal row rn mp rec text hm hrec
    rw [he] at h
    exact h
  · intro row rn mp rec hm hrec
    exact scrapeItemRow_serving_noModal row rn mp rec hm hrec

/-- Concrete row for the C10 witness: non-empty row capture, modal found
but without any serving-size text. -/
def wRowA : ItemRowInput :=
  ⟨["12 oz"], [], "", some "Burger", some "Nutrition Information Calories200", false⟩

/-- Concrete row for the C10 witness: non-empty row capture, no modal. -/
def wRowB : ItemRowInput := ⟨["12 oz"], [], "", some "Burger", none, false⟩

/-- C10 witness: both conjuncts applied at concrete rows. -/
theorem claim_C10_witness :
    (getServingSize wRowA.cells = "12 oz" ∧
      extractServing "Nutrition Information Calories200" = "" ∧
      objGet (jsObj ([("restaurant", "R"), ("meal_period", "Lunch"),
        ("item_name", jsTrim "Burger"),
        ("serving_size", getServingSize wRowA.cells),
        ("dietary_labels", getDietaryLabels wRowA.imgTexts wRowA.rowText)] ++
        extractNutritionFromModal wRowA.modalText)) "serving_size" = some "") ∧
    objGet (jsObj ([("restaurant", "R"), ("meal_period", "Lunch"),
      ("item_name", jsTrim "Burger"),
      ("serving_size", getServingSize wRowB.cells),
      ("dietary_labels", getDietaryLabels wRowB.imgTexts wRowB.rowText)] ++
      extractNutritionFromModal wRowB.modalText)) "serving_size" = some "12 oz" := by
  refine ⟨⟨by decide, by decide, ?_⟩, ?_⟩
  · exact claim_C10_serving_row_survival.1 wRowA "R" "Lunch" _
      "Nutrition Information Calories200" rfl (by decide) rfl
  · have h := claim_C10_serving_row_survival.2 wRowB "R" "Lunch" _ rfl rfl
    rw [show getServingSize wRowB.cells = "12 oz" from by decide] at h
    exact h

/-! ### C3: extraction-miss representation (corrected) -/

/-- Concrete row for the C3 counterexample: no modal is found. -/
def wRow3 : ItemRowInput := ⟨[], [], "", some "Pasta Bowl", none, false⟩

/-- C3 counterexample: a record emitted when the nutrition modal is not
found does not contain the `calories` field at all: the field is absent
rather than present with an empty-string value, contradicting the claim
for the modal-not-found case. -/
theorem claim_C3_counterexample :
    scrapeItemRow wRow3 "Cafe" "All Day" = some [("restaurant", "Cafe"),
      ("meal_period", "All Day"), ("item_name", "Pasta Bowl"),
      ("serving_size", ""), ("dietary_labels", "")] ∧
    objGet [("restaurant", "Cafe"), ("meal_period", "All Day"),
      ("item_name", "Pasta Bowl"), ("serving_size", ""), ("dietary_labels", "")]
      "calories" = none := by
  constructor
  · rfl
  · rfl

/-- C3 (amended): for every emitted record built from a found modal, all
twelve nutrition fields are present, in fixed order, with string values,
and a field whose pattern found nothing is the empty string; when the
modal is not found the nutrition spread is empty, so only the five
row-level fields are present and the nutrition-only fields are absent. -/
theorem claim_C3_extraction_miss :
    (∀ text : String, (extractNutritionFromModal (some text)).map Prod.fst =
      ["serving_size", "calories", "total_fat_g", "saturated_fat_g",
       "trans_fat_g", "cholesterol_mg", "sodium_mg", "total_carbs_g",
       "fiber_g", "sugars_g", "protein_g", "ingredients"]) ∧
    extractNutritionFromModal none = [] ∧
    (∀ (row : ItemRowInput) (rn mp text : String) (rec : Obj),
      row.modalText = some text → scrapeItemRow row rn mp = some rec →
      rec.map Prod.fst = ["restaurant", "meal_period", "item_name",
        "serving_size", "dietary_labels", "calories", "total_fat_g",
        "saturated_fat_g", "trans_fat_g", "cholesterol_mg", "sodium_mg",
        "total_carbs_g", "fiber_g", "sugars_g", "protein_g", "ingredients"]) ∧
    (∀ (row : ItemRowInput) (rn mp : String) (rec : Obj),
      row.modalText = none → scrapeItemRow row rn mp = some rec →
      rec.map Prod.fst = ["restaurant", "meal_period", "item_name",
        "serving_size", "dietary_labels"]) ∧
    (∀ (m : List Char → Option (List Char)) (text : String),
      scanO m text.data = none → extractMatch m text = "") ∧
    (∀ text : String, scanO mIngr text.data = none → extractIngredients text = "") := by
  refine ⟨fun text => by rw [extractNutritionFromModal_some]; rfl, rfl,
    fun row rn mp text rec hm hrec => ?_, fun row rn mp rec hm hrec => ?_,
    fun m text h => by unfold extractMatch; rw [h],
    fun text h => by unfold extractIngredients; rw [h]⟩
  · obtain ⟨lt, hl, hr⟩ := scrapeItemRow_some_inv row rn mp rec hrec
    subst hr
    rw [hm, extractNutritionFromModal_some, jsObj_withModal]
    rfl
  · obtain ⟨lt, hl, hr⟩ := scrapeItemRow_some_inv row rn mp rec hrec
    subst hr
    rw [hm, show extractNutritionFromModal none = [] from rfl, jsObj_noModal]
    rfl

/-- Concrete row for the C3 witness: a modal whose text matches no field
pattern. -/
def wRow3b : ItemRowInput := ⟨[], [], "", some "Pasta Bowl", some "nothing here", false⟩

/-- C3 witness: the amended theorem applied at concrete inputs. -/
theorem claim_C3_witness :
    (jsObj ([("restaurant", "Cafe"), ("meal_period", "All Day"),
      ("item_name", jsTrim "Pasta Bowl"),
      ("serving_size", getServingSize wRow3b.cells),
      ("dietary_labels", getDietaryLabels wRow3b.imgTexts wRow3b.rowText)] ++
      extractNutritionFromModal wRow3b.modalText)).map Prod.fst =
      ["restaurant", "meal_period", "item_name", "serving_size",
       "dietary_labels", "calories", "total_fat_g", "saturated_fat_g",
       "trans_fat_g", "cholesterol_mg", "sodium_mg", "total_carbs_g",
       "fiber_g", "sugars_g", "protein_g", "ingredients"] ∧
    extractMatch mSodium "nothing here" = "" := by
  constructor
  · exact claim_C3_extraction_miss.2.2.1 wRow3b "Cafe" "All Day" "nothing here" _ rfl rfl
  · exact claim_C3_extraction_miss.2.2.2.2.1 mSodium "nothing here" (by decide)

/-! ### C9: dietary-label union (corrected) -/

/-- C9 counterexample: two images with the same alt text yield a
duplicated label, so the produced label list is not deduplicated as the
claim states. -/
theorem claim_C9_counterexample :
    getDietaryLabels ["vegan icon", "vegan icon"] "" = "Vegan; Vegan" ∧
    getDietaryLabels ["vegan icon", "vegan icon"] "" ≠ "Vegan" := by
  constructor
  · decide
  · decide

/-- C9 (amended): the image pass appends one canonical label per matching
image alt text without deduplication; the row-text pass for Vegan,
Vegetarian, Gluten Free and Halal adds only labels not already collected;
labels are joined with `"; "` in discovery order, image pass first. -/
theorem claim_C9_dietary_labels :
    getDietaryLabels ["Vegan option"] "Tofu Bowl Vegetarian" = "Vegan; Vegetarian" ∧
    getDietaryLabels ["vegan icon", "vegan icon"] "" = "Vegan; Vegan" ∧
    getDietaryLabels ["Vegan badge"] "Vegan" = "Vegan" ∧
    getDietaryLabels ["vegetarian plate"] "Vegan curry" = "Vegetarian; Vegan" ∧
    getDietaryLabels ["gluten-free icon"] "" = "Gluten Free" ∧
    getDietaryLabels ["dairy free"] "" = "Dairy Free" ∧
    getDietaryLabels ["halal certified"] "" = "Halal" ∧
    getDietaryLabels ["kosher mark"] "" = "Kosher" ∧
    getDietaryLabels [] "Gluten Free Halal" = "Gluten Free; Halal" ∧
    getDietaryLabels [] "Vegetarian" = "Vegetarian" := by
  refine ⟨by decide, by decide, by decide, by decide, by decide,
    by decide, by decide, by decide, by decide, by decide⟩

/-! ### C7: empty-export guard -/

/-- C7: exporting zero records reports an error and writes no file; a
file is produced exactly for a non-empty dataset, so no header-only or
zero-row file is ever written. -/
theorem claim_C7_empty_export_guard :
    downloadCSVContent [] = none ∧
    (∀ data : List Obj, downloadCSVContent data = none ↔ data = []) := by
  refine ⟨rfl, fun data => ?_⟩
  cases data with
  | nil => simp [downloadCSVContent]
  | cons a as => simp [downloadCSVContent]

/-- C7 witness: the characterization applied at a concrete one-record
dataset. -/
theorem claim_C7_witness :
    ([[("restaurant", "Cafe")]] : List Obj) ≠ [] ∧
    downloadCSVContent [[("restaurant", "Cafe")]] ≠ none := by
  refine ⟨by decide, fun h => ?_⟩
  have := (claim_C7_empty_export_guard.2 [[("restaurant", "Cafe")]]).mp h
  cases this

/-! ### C6: CSV round trip -/

theorem parseQuoted_escape (v : List Char) :
    ∀ r : List Char, (∀ cs, r ≠ '"' :: cs) →
      parseQuoted (escapeQuotes v ++ '"' :: r) = (v, r) := by
  induction v with
  | nil =>
    intro r hr
    show parseQuoted ('"' :: r) = ([], r)
    cases r with
    | nil => rfl
    | cons c cs =>
      have hc : c ≠ '"' := fun h => hr cs (by rw [h])
      rw [parseQuoted.eq_3]
      intro r1 h1
      injection h1 with h1a h1b
      exact hc h1a
  | cons c v ih =>
    intro r hr
    by_cases hc : c = '"'
    · subst hc
      show parseQuoted ('"' :: '"' :: (escapeQuotes v ++ '"' :: r)) = ('"' :: v, r)
      rw [show parseQuoted ('"' :: '"' :: (escapeQuotes v ++ '"' :: r))
          = ('"' :: (parseQuoted (escapeQuotes v ++ '"' :: r)).1,
             (parseQuoted (escapeQuotes v ++ '"' :: r)).2) from rfl]
      rw [ih r hr]
    · have he : escapeQuotes (c :: v) = c :: escapeQuotes v := by
        simp [escapeQuotes, hc]
      rw [he, List.cons_append]
      rw [parseQuoted.eq_4 c _ (fun _ h _ => hc h) hc]
      rw [ih r hr]

theorem parseField_quoted (v : String) (r : List Char) (hr : ∀ cs, r ≠ '"' :: cs) :
    parseField (quoteField v ++ r) = (v, r) := by
  show parseField (('"' :: (escapeQuotes v.data ++ ['"'])) ++ r) = (v, r)
  rw [List.cons_append, List.append_assoc, List.singleton_append]
  have h : parseField ('"' :: (escapeQuotes v.data ++ '"' :: r))
      = (String.mk (parseQuoted (escapeQuotes v.data ++ '"' :: r)).1,
         (parseQuoted (escapeQuotes v.data ++ '"' :: r)).2) := by
    simp [parseField]
  rw [h, parseQuoted_escape v.data r hr]

theorem takeWhile_csv (name : List Char)
    (hs : ∀ c ∈ name, (!(c == ',') && !(c == '\n')) = true)
    (r : List Char) (hr : r = [] ∨ (∃ tl, r = ',' :: tl) ∨ (∃ tl, r = '\n' :: tl)) :
    (name ++ r).takeWhile (fun x => !(x == ',') && !(x == '\n')) = name ∧
    (name ++ r).dropWhile (fun x => !(x == ',') && !(x == '\n')) = r := by
  induction name with
  | nil =>
    rcases hr with h | ⟨tl, h⟩ | ⟨tl, h⟩ <;> subst h
    · exact ⟨rfl, rfl⟩
    · exact ⟨rfl, rfl⟩
    · exact ⟨rfl, rfl⟩
  | cons c cs ih =>
    have hc := hs c (List.mem_cons_self c cs)
    obtain ⟨ih1, ih2⟩ := ih (fun x hx => hs x (List.mem_cons_of_mem c hx))
    constructor
    · rw [List.cons_append, List.takeWhile_cons, hc, if_pos rfl, ih1]
    · rw [List.cons_append, List.dropWhile_cons, hc, if_pos rfl, ih2]

theorem parseField_unquoted (name : List Char)
    (hs : ∀ c ∈ name, c ≠ ',' ∧ c ≠ '\n' ∧ c ≠ '"')
    (r : List Char) (hr : r = [] ∨ (∃ tl, r = ',' :: tl) ∨ (∃ tl, r = '\n' :: tl)) :
    parseField (name ++ r) = (String.mk name, r) := by
  have hs2 : ∀ c ∈ name, (!(c == ',') && !(c == '\n')) = true := by
    intro c hcm
    have := hs c hcm
    simp [this.1, this.2.1]
  cases name with
  | nil =>
    rcases hr with h | ⟨tl, h⟩ | ⟨tl, h⟩ <;> subst h
    · rfl
    · rfl
    · rfl
  | cons c cs =>
    have hc := hs c (List.mem_cons_self c cs)
    obtain ⟨ht, hd⟩ := takeWhile_csv (c :: cs) hs2 r hr
    rw [List.cons_append]
    rw [show parseField (c :: (cs ++ r))
        = if c = '"' then (String.mk (parseQuoted (cs ++ r)).1, (parseQuoted (cs ++ r)).2)
          else (String.mk ((c :: (cs ++ r)).takeWhile (fun x => !(x == ',') && !(x == '\n'))),
                (c :: (cs ++ r)).dropWhile (fun x => !(x == ',') && !(x == '\n'))) from rfl]
    rw [if_neg hc.2.2]
    rw [← List.cons_append, ht, hd]

theorem parseRow_comma (s : List Char) (f : String) (r2 : List Char)
    (hf : parseField s = (f, ',' :: r2)) :
    parseRow s = (f :: (parseRow r2).1, (parseRow r2).2) := by
  rw [parseRow]
  split
  · rename_i r2a heq
    rw [hf] at heq
    have heq2 : ',' :: r2 = ',' :: r2a := heq
    injection heq2 with h1 h2
    subst h2
    rw [hf]
  · rename_i r2a heq
    rw [hf] at heq
    have heq2 : ',' :: r2 = '\n' :: r2a := heq
    injection heq2 with h1 h2
    exact absurd h1 (by decide)
  · rename_i hc hn
    exact absurd (by rw [hf] : (parseField s).2 = ',' :: r2) (fun h => hc r2 h)

theorem parseRow_newline (s : List Char) (f : String) (r2 : List Char)
    (hf : parseField s = (f, '\n' :: r2)) :
    parseRow s = ([f], r2) := by
  rw [parseRow]
  split
  · rename_i r2a heq
    rw [hf] at heq
    have heq2 : '\n' :: r2 = ',' :: r2a := heq
    injection heq2 with h1 h2
    exact absurd h1 (by decide)
  · rename_i r2a heq
    rw [hf] at heq
    have heq2 : '\n' :: r2 = '\n' :: r2a := heq
    injection heq2 with h1 h2
    subst h2
    rw [hf]
  · rename_i hc hn
    exact absurd (by rw [hf] : (parseField s).2 = '\n' :: r2) (fun h => hn r2 h)

theorem parseRow_end (s : List Char) (f : String)
    (hf : parseField s = (f, [])) :
    parseRow s = ([f], []) := by
  rw [parseRow]
  split
  · rename_i r2a heq
    rw [hf] at heq
    exact absurd (heq : ([] : List Char) = ',' :: r2a) (by simp)
  · rename_i r2a heq
    rw [hf] at heq
    exact absurd (heq : ([] : List Char) = '\n' :: r2a) (by simp)
  · rw [hf]

theorem ne_quote_cons_comma (x : List Char) : ∀ cs, (',' :: x) ≠ '"' :: cs := by
  intro cs h
  injection h with h1 h2
  exact absurd h1 (by decide)

theorem ne_quote_cons_newline (x : List Char) : ∀ cs, ('\n' :: x) ≠ '"' :: cs := by
  intro cs h
  injection h with h1 h2
  exact absurd h1 (by decide)

theorem ne_quote_nil : ∀ cs, ([] : List Char) ≠ '"' :: cs := by
  intro cs h
  cases h

theorem parseRow_data (vals : List String) : vals ≠ [] →
    (∀ tail, parseRow (joinL [','] (vals.map quoteField) ++ '\n' :: tail) = (vals, tail)) ∧
    parseRow (joinL [','] (vals.map quoteField)) = (vals, []) := by
  induction vals with
  | nil => intro h; exact absurd rfl h
  | cons v vs ih =>
    intro _
    cases vs with
    | nil =>
      constructor
      · intro tail
        have hf := parseField_quoted v ('\n' :: tail) (ne_quote_cons_newline tail)
        exact parseRow_newline _ v tail hf
      · have hf : parseField (joinL [','] ([v].map quoteField)) = (v, []) := by
          have h0 := parseField_quoted v [] ne_quote_nil
          rw [List.append_nil] at h0
          exact h0
        exact parseRow_end _ v hf
    | cons v2 vs2 =>
      obtain ⟨ih1, ih2⟩ := ih (by simp)
      have hj : joinL [','] ((v :: v2 :: vs2).map quoteField)
          = quoteField v ++ (',' :: joinL [','] ((v2 :: vs2).map quoteField)) := rfl
      constructor
      · intro tail
        rw [hj, List.append_assoc, List.cons_append]
        have hf := parseField_quoted v
          (',' :: (joinL [','] ((v2 :: vs2).map quoteField) ++ '\n' :: tail))
          (ne_quote_cons_comma _)
        rw [parseRow_comma _ v _ hf, ih1 tail]
      · rw [hj]
        have hf := parseField_quoted v
          (',' :: joinL [','] ((v2 :: vs2).map quoteField)) (ne_quote_cons_comma _)
        rw [parseRow_comma _ v _ hf, ih2]

theorem parseRow_header (names : List String) :
    (∀ n ∈ names, ∀ c ∈ n.data, c ≠ ',' ∧ c ≠ '\n' ∧ c ≠ '"') → names ≠ [] →
    ∀ tail, parseRow (joinL [','] (names.map String.data) ++ '\n' :: tail)
      = (names, tail) := by
  induction names with
  | nil => intro _ h; exact absurd rfl h
  | cons n ns ih =>
    intro hsafe _ tail
    cases ns with
    | nil =>
      have hf := parseField_unquoted n.data (hsafe n (by simp)) ('\n' :: tail)
        (Or.inr (Or.inr ⟨tail, rfl⟩))
      exact parseRow_newline _ _ tail hf
    | cons n2 ns2 =>
      have hj : joinL [','] ((n :: n2 :: ns2).map String.data)
          = n.data ++ (',' :: joinL [','] ((n2 :: ns2).map String.data)) := rfl
      rw [hj, List.append_assoc, List.cons_append]
      have hf := parseField_unquoted n.data (hsafe n (by simp))
        (',' :: (joinL [','] ((n2 :: ns2).map String.data) ++ '\n' :: tail))
        (Or.inr (Or.inl ⟨_, rfl⟩))
      rw [parseRow_comma _ _ _ hf,
        ih (fun m hm => hsafe m (List.mem_cons_of_mem n hm)) (by simp) tail]

theorem parseRows_nil : parseRows [] = [] := by
  rw [parseRows]

theorem parseRows_ne_nil (s : List Char) (hs : s ≠ []) :
    parseRows s = (parseRow s).1 :: parseRows (parseRow s).2 := by
  cases s with
  | nil => exact absurd rfl hs
  | cons c cs => rw [parseRows]

theorem joinL_quote_head (v : String) (vs : List String) :
    ∃ cs, joinL [','] ((v :: vs).map quoteField) = '"' :: cs := by
  cases vs with
  | nil => exact ⟨escapeQuotes v.data ++ ['"'], rfl⟩
  | cons v2 vs2 =>
    exact ⟨(escapeQuotes v.data ++ ['"'])
      ++ ',' :: joinL [','] ((v2 :: vs2).map quoteField), rfl⟩

theorem parseRows_data (rows : List (List String)) :
    (∀ vals ∈ rows, vals ≠ []) → rows ≠ [] →
    parseRows (joinL ['\n'] (rows.map (fun vals => joinL [','] (vals.map quoteField))))
      = rows := by
  induction rows with
  | nil => intro _ h; exact absurd rfl h
  | cons vals more ih =>
    intro hall _
    have hvne : vals ≠ [] := hall vals (by simp)
    obtain ⟨v, vs, hv⟩ : ∃ v vs, vals = v :: vs := by
      cases vals with
      | nil => exact absurd rfl hvne
      | cons a as => exact ⟨a, as, rfl⟩
    obtain ⟨h1, h2⟩ := parseRow_data vals hvne
    cases more with
    | nil =>
      have hj : joinL ['\n'] ([vals].map (fun vals => joinL [','] (vals.map quoteField)))
          = joinL [','] (vals.map quoteField) := rfl
      rw [hj]
      have hnn : joinL [','] (vals.map quoteField) ≠ [] := by
        subst hv
        obtain ⟨cs0, hcs⟩ := joinL_quote_head v vs
        rw [hcs]
        simp
      rw [parseRows_ne_nil _ hnn, h2]
      show vals :: parseRows [] = [vals]
      rw [parseRows_nil]
    | cons vals2 more2 =>
      have hj : joinL ['\n'] ((vals :: vals2 :: more2).map
            (fun vals => joinL [','] (vals.map quoteField)))
          = joinL [','] (vals.map quoteField) ++ '\n' :: joinL ['\n']
              ((vals2 :: more2).map (fun vals => joinL [','] (vals.map quoteField))) := rfl
      rw [hj]
      have hnn : joinL [','] (vals.map quoteField) ++ '\n' :: joinL ['\n']
          ((vals2 :: more2).map (fun vals => joinL [','] (vals.map quoteField))) ≠ [] := by
        simp
      rw [parseRows_ne_nil _ hnn, h1 _]
      show vals :: parseRows (joinL ['\n'] ((vals2 :: more2).map
        (fun vals => joinL [','] (vals.map quoteField)))) = vals :: vals2 :: more2
      rw [ih (fun m hm => hall m (List.mem_cons_of_mem vals hm)) (by simp)]

theorem objGetD_cons_self (p : String × String) (ps : Obj) :
    objGetD (p :: ps) p.1 = p.2 := by
  unfold objGetD
  rw [List.find?_cons_of_pos]
  · rfl
  · simp

theorem objGetD_cons_ne (p : String × String) (ps : Obj) (h : String)
    (hne : p.1 ≠ h) : objGetD (p :: ps) h = objGetD ps h := by
  unfold objGetD
  rw [List.find?_cons_of_neg]
  simp [hne]

theorem objGetD_keys (r : Obj) : (r.map Prod.fst).Nodup →
    (r.map Prod.fst).map (fun h => objGetD r h) = r.map Prod.snd := by
  induction r with
  | nil => intro _; rfl
  | cons p ps ih =>
    intro hnd
    rw [List.map_cons, List.nodup_cons] at hnd
    simp only [List.map_cons]
    congr 1
    · exact objGetD_cons_self p ps
    · have hcong : ∀ h ∈ ps.map Prod.fst, objGetD (p :: ps) h = objGetD ps h := by
        intro h hh
        apply objGetD_cons_ne
        intro he
        exact hnd.1 (he ▸ hh)
      rw [List.map_congr_left hcong]
      exact ih hnd.2

theorem csvRowFor_eq (headers : List String) (r : Obj)
    (hk : r.map Prod.fst = headers) (hnd : headers.Nodup) :
    csvRowFor headers r = joinL [','] ((r.map Prod.snd).map quoteField) := by
  unfold csvRowFor
  have h1 : headers.map (fun h => quoteField (objGetD r h))
      = (headers.map (fun h => objGetD r h)).map quoteField := by
    rw [List.map_map]
    rfl
  rw [h1]
  subst hk
  rw [objGetD_keys r hnd]

/-- C6: exporting a non-empty sequence of well-formed records (uniform
keys in the first record's insertion order, header names free of commas,
quotes and newlines) emits one unquoted header row followed by one quoted
data row per record, and a standard CSV parser maps the output back to
the header names followed by exactly the original field values of each
record, in order — including values containing quotes, commas or
newlines. -/
theorem claim_C6_csv_roundtrip (first : Obj) (rest : List Obj)
    (hkeys : ∀ r ∈ first :: rest, r.map Prod.fst = first.map Prod.fst)
    (hnodup : (first.map Prod.fst).Nodup)
    (hne : first ≠ [])
    (hsafe : ∀ k ∈ first.map Prod.fst, ∀ c ∈ k.data, c ≠ ',' ∧ c ≠ '\n' ∧ c ≠ '"') :
    downloadCSVContent (first :: rest)
      = some (String.mk (joinL ['\n']
          (joinL [','] ((first.map Prod.fst).map String.data)
            :: (first :: rest).map (csvRowFor (first.map Prod.fst))))) ∧
    parseCSV (String.mk (joinL ['\n']
          (joinL [','] ((first.map Prod.fst).map String.data)
            :: (first :: rest).map (csvRowFor (first.map Prod.fst)))))
      = (first.map Prod.fst) :: (first :: rest).map (fun r => r.map Prod.snd) := by
  constructor
  · rfl
  · show parseRows (joinL ['\n']
        (joinL [','] ((first.map Prod.fst).map String.data)
          :: (first :: rest).map (csvRowFor (first.map Prod.fst))))
      = (first.map Prod.fst) :: (first :: rest).map (fun r => r.map Prod.snd)
    have hmapeq : (first :: rest).map (csvRowFor (first.map Prod.fst))
        = ((first :: rest).map (fun r => r.map Prod.snd)).map
            (fun vals => joinL [','] (vals.map quoteField)) := by
      rw [List.map_map]
      apply List.map_congr_left
      intro r hr
      exact csvRowFor_eq _ r (hkeys r hr) hnodup
    rw [hmapeq]
    have hjoin : joinL ['\n']
        (joinL [','] ((first.map Prod.fst).map String.data)
          :: ((first :: rest).map (fun r => r.map Prod.snd)).map
              (fun vals => joinL [','] (vals.map quoteField)))
        = joinL [','] ((first.map Prod.fst).map String.data)
          ++ '\n' :: joinL ['\n'] (((first :: rest).map (fun r => r.map Prod.snd)).map
              (fun vals => joinL [','] (vals.map quoteField))) := rfl
    rw [hjoin]
    rw [parseRows_ne_nil _ (by simp)]
    rw [parseRow_header (first.map Prod.fst) hsafe (by simp [hne]) _]
    show (first.map Prod.fst) :: parseRows (joinL ['\n']
        (((first :: rest).map (fun r => r.map Prod.snd)).map
          (fun vals => joinL [','] (vals.map quoteField))))
      = (first.map Prod.fst) :: (first :: rest).map (fun r => r.map Prod.snd)
    have hvalsne : ∀ vals ∈ (first :: rest).map (fun r => r.map Prod.snd), vals ≠ [] := by
      intro vals hv
      obtain ⟨r, hr, hveq⟩ := List.mem_map.mp hv
      intro hnil
      rw [← hveq] at hnil
      have hrnil : r = [] := by
        cases r with
        | nil => rfl
        | cons a as => cases hnil
      subst hrnil
      have hkr := hkeys [] hr
      have : first = [] := by
        cases first with
        | nil => rfl
        | cons b bs => cases hkr
      exact hne this
    rw [parseRows_data _ hvalsne (by simp)]

/-- C6 witness: the round trip applied to two concrete records whose
values contain a comma, a literal double quote and an empty field. -/
theorem claim_C6_witness :
    downloadCSVContent [[("a", "x,\"y\""), ("b", "")], [("a", "2"), ("b", "z")]]
      = some "a,b\n\"x,\"\"y\"\"\",\"\"\n\"2\",\"z\"" ∧
    parseCSV "a,b\n\"x,\"\"y\"\"\",\"\"\n\"2\",\"z\""
      = [["a", "b"], ["x,\"y\"", ""], ["2", "z"]] := by
  obtain ⟨h1, h2⟩ := claim_C6_csv_roundtrip [("a", "x,\"y\""), ("b", "")]
    [[("a", "2"), ("b", "z")]] (by decide) (by decide) (by decide) (by decide)
  refine ⟨?_, ?_⟩
  · rw [h1]
    decide
  · rw [show ("a,b\n\"x,\"\"y\"\"\",\"\"\n\"2\",\"z\"" : String) = String.mk (joinL ['\n']
        (joinL [','] ((([("a", "x,\"y\""), ("b", "")] : Obj).map Prod.fst).map String.data)
          :: ([[("a", "x,\"y\""), ("b", "")], [("a", "2"), ("b", "z")]] : List Obj).map
              (csvRowFor (([("a", "x,\"y\""), ("b", "")] : Obj).map Prod.fst)))) from by decide]
    rw [h2]
    decide

end DukeScraper
